import Mathlib

/-!
Shallow embedding of the "World Runes" composition solver
(`solver.ts` / `types.ts` / `ResultsDisplay.tsx`) and proofs about it.

The solver's module-level catalog (`units`, `regions` from `data.ts`) is made
an explicit parameter of every function that reads it; otherwise each
definition follows the corresponding TypeScript source line by line.
JavaScript `Map` / `Set` objects (which preserve insertion order) are
embedded as association lists / lists with membership tests, and the
(stable) `Array.prototype.sort` is embedded as a stable insertion sort.
-/

namespace WorldRunes

/-- `Unit` record from `types.ts` (the optional `imageUrl` display field is
omitted; the optional `unlockable` flag defaults to `false`, matching the
falsiness of `undefined`). -/
structure GameUnit where
  id : String
  name : String
  cost : Nat
  regions : List String
  unlockable : Bool := false
  deriving DecidableEq, Repr

/-- `Region` record from `types.ts` (display `color` omitted). -/
structure Region where
  id : String
  name : String
  requiredUnits : Option Nat := none
  deriving DecidableEq, Repr

/-- `EmblemAssignment` entries `{ unitId, region }`. -/
structure EmblemAssignment where
  unitId : String
  region : String
  deriving DecidableEq, Repr

/-- `TeamComposition` from `types.ts`. -/
structure TeamComposition where
  units : List GameUnit
  emblemAssignments : List EmblemAssignment
  activeRegions : List String
  deriving DecidableEq, Repr

/-- `SolverConfig` from `types.ts`. -/
structure SolverConfig where
  maxBoardSize : Nat
  minUnits : Nat
  maxUnits : Nat
  requiredUnits : Option (List String) := none
  excludedUnits : Option (List String) := none
  deriving DecidableEq, Repr

/-- `SolverResult` from `types.ts`; `totalCost?` is optional. -/
structure SolverResult where
  composition : TeamComposition
  unitCount : Nat
  regionCount : Nat
  totalCost : Option Nat := none
  deriving DecidableEq, Repr

/-- `getRegionById` from `data.ts`: `regions.find(r => r.id === id)`. -/
def getRegionById (regions : List Region) (id : String) : Option Region :=
  regions.find? (fun r => r.id == id)

/-- JavaScript `Map.get(k)` on an association list kept in insertion order. -/
def mapGet (m : List (String × Nat)) (k : String) : Option Nat :=
  (m.find? (fun p => p.1 == k)).map (·.2)

/-- JavaScript `map.get(k) || 0`. -/
def mapGetD (m : List (String × Nat)) (k : String) : Nat :=
  (mapGet m k).getD 0

/-- JavaScript `Map.set(k, v)`: update in place if present, else append
(insertion order is preserved, as for a real JS `Map`). -/
def mapSet (m : List (String × Nat)) (k : String) (v : Nat) : List (String × Nat) :=
  match m with
  | [] => [(k, v)]
  | p :: rest => if p.1 == k then (k, v) :: rest else p :: mapSet rest k v

/-- Keys of the association list, in insertion order (`map.keys()`). -/
def mapKeys (m : List (String × Nat)) : List String :=
  m.map (·.1)

/-- JavaScript `Set.add` on an insertion-ordered list of distinct keys. -/
def setAdd (s : List String) (k : String) : List String :=
  if s.contains k then s else s ++ [k]

/-- Lexicographic code-point comparison on character lists. -/
def strLtGo : List Char → List Char → Bool
  | [], [] => false
  | [], _ :: _ => true
  | _ :: _, [] => false
  | a :: as, b :: bs =>
    if a.toNat < b.toNat then true
    else if b.toNat < a.toNat then false
    else strLtGo as bs

/-- The default JavaScript string comparison (`a < b`, as used by
`Array.prototype.sort()` without a comparator): lexicographic over the
code units, which for the ASCII ids of this catalog coincides with
code-point order. -/
def strLt (a b : String) : Bool :=
  strLtGo a.data b.data

/-- Stable insertion step: place `x` before the first element `y` with
`lt y x = false`, so that among comparator-equal elements earlier input
comes first — the result of any stable sort (JS `Array.prototype.sort`). -/
def sortInsert (lt : α → α → Bool) (x : α) : List α → List α
  | [] => [x]
  | y :: ys => if lt y x then y :: sortInsert lt x ys else x :: y :: ys

/-- Stable sort by a strict comparator (`cmp(a,b) < 0`), embedding the
stable JavaScript `Array.prototype.sort`. -/
def sortBy (lt : α → α → Bool) (l : List α) : List α :=
  l.foldr (sortInsert lt) []

/-- Body of the `for (let i = start; ...)` loop inside `backtrack` of
`generateCombinations` (solver.ts lines 26-44), translated to structural
recursion on the suffix of items that starts at `start`.  Each iteration
first re-checks `count < maxResults` (the loop condition), pushes the next
item onto `current`, runs the recursive `backtrack(i + 1)` body (inlined
here: its own budget check, the emission check, the pruning check, and its
inner loop on the remaining suffix) and then continues with the suffix. -/
def gcLoop (b size : Nat) : List α → List α → Nat → List (List α) × Nat
  | [], _, count => ([], count)
  | x :: rest, current, count =>
    if b ≤ count then ([], count)
    else
      let cur' := current ++ [x]
      let r1 :=
        if b ≤ count then ([], count)
        else if cur'.length = size then ([cur'], count + 1)
        else if rest.length < size - cur'.length then ([], count)
        else gcLoop b size rest cur' count
      let r2 := gcLoop b size rest current r1.2
      (r1.1 ++ r2.1, r2.2)

/-- `backtrack(start)` from `generateCombinations` (solver.ts lines 26-44):
the budget check, the emission of a complete `current`, the
`remaining < needed` pruning, then the loop over the remaining suffix. -/
def btkB (b size : Nat) (suffix current : List α) (count : Nat) :
    List (List α) × Nat :=
  if b ≤ count then ([], count)
  else if current.length = size then ([current], count + 1)
  else if suffix.length < size - current.length then ([], count)
  else gcLoop b size suffix current count

/-- `generateCombinations(items, size, maxResults)` (solver.ts lines 7-47),
with the emitted subsets collected into a list (the generator is pure, so
eager collection is faithful). -/
def generateCombinations (items : List α) (size : Nat) (b : Nat) :
    List (List α) :=
  if size = 0 then [[]]
  else if items.length < size then []
  else if size = items.length then [items]
  else (btkB b size items [] 0).1

/-- `countRegionUnits` (solver.ts lines 52-60). -/
def countRegionUnits (teamUnits : List GameUnit) : List (String × Nat) :=
  teamUnits.foldl
    (fun m u => u.regions.foldl (fun m r => mapSet m r (mapGetD m r + 1)) m) []

/-- `region.requiredUnits || 1` — the JavaScript `||` also maps an explicit
`0` to the default `1`. -/
def reqOf (r : Region) : Nat :=
  match r.requiredUnits with
  | some n => if n = 0 then 1 else n
  | none => 1

/-- `getRegionById(e)?.requiredUnits || 1` as used at solver.ts lines
275-276 and 310-311. -/
def reqOfId (regions : List Region) (id : String) : Nat :=
  match getRegionById regions id with
  | some r => reqOf r
  | none => 1

/-- Return record of `isValidComposition`. -/
structure VResult where
  valid : Bool
  activeRegions : List String
  emblemAssignments : List EmblemAssignment
  deriving DecidableEq, Repr

/-- `isValidComposition(teamUnits, emblem1, emblem2)` (solver.ts lines
67-126).  The `regionDetails` array built there is used only for logging
and is dropped. -/
def isValidComposition (regions : List Region) (teamUnits : List GameUnit)
    (emblem1 emblem2 : String) : VResult :=
  let regionCounts := countRegionUnits teamUnits
  match teamUnits.find? (fun u => !(u.regions.contains emblem1)) with
  | none => ⟨false, [], []⟩
  | some unitForEmblem1 =>
    let counts1 := mapSet regionCounts emblem1 (mapGetD regionCounts emblem1 + 1)
    match teamUnits.find? (fun u => !(u.regions.contains emblem2)) with
    | none => ⟨false, [], []⟩
    | some unitForEmblem2 =>
      let counts2 := mapSet counts1 emblem2 (mapGetD counts1 emblem2 + 1)
      let emblemAssignments : List EmblemAssignment :=
        [⟨unitForEmblem1.id, emblem1⟩, ⟨unitForEmblem2.id, emblem2⟩]
      let allRegionsToCheck := setAdd (setAdd (mapKeys counts2) emblem1) emblem2
      let activeRegions := allRegionsToCheck.filter (fun regionId =>
        match getRegionById regions regionId with
        | none => false
        | some region => decide (reqOf region ≤ mapGetD counts2 regionId))
      if activeRegions.length < 4 then ⟨false, activeRegions, []⟩
      else ⟨true, activeRegions, emblemAssignments⟩

/-- `filterUnits(units, config)` (solver.ts lines 131-150): allow/deny
lists, then a stable sort pushing unlockable units to the end. -/
def filterUnits (catalogUnits : List GameUnit) (config : SolverConfig) :
    List GameUnit :=
  let filtered := catalogUnits
  let filtered :=
    match config.requiredUnits with
    | some req => if req.length > 0 then filtered.filter (fun u => req.contains u.id) else filtered
    | none => filtered
  let filtered :=
    match config.excludedUnits with
    | some exc => if exc.length > 0 then filtered.filter (fun u => !(exc.contains u.id)) else filtered
    | none => filtered
  sortBy (fun a b =>
    (if a.unlockable then (1 : Nat) else 0) < (if b.unlockable then (1 : Nat) else 0)) filtered

/-- The `uniqueUnits` helper (solver.ts lines 191-200), with its `seen`
set made an explicit accumulator. -/
def uniqueUnitsGo (seen : List String) : List GameUnit → List GameUnit
  | [] => []
  | u :: rest =>
    if seen.contains u.id then uniqueUnitsGo seen rest
    else u :: uniqueUnitsGo (seen ++ [u.id]) rest

/-- `uniqueUnits(arr)` (solver.ts lines 191-200). -/
def uniqueUnits (arr : List GameUnit) : List GameUnit :=
  uniqueUnitsGo [] arr

/-- `teamUnits.map(u => u.id).sort().join(',')` — the deduplication
signature of a composition (solver.ts lines 321, 580-583). -/
def compositionKey (team : List GameUnit) : String :=
  String.intercalate "," (sortBy strLt (team.map (·.id)))

/-- `teamUnits.reduce((sum, u) => sum + u.cost, 0)` (solver.ts line 599). -/
def sumCosts (team : List GameUnit) : Nat :=
  team.foldl (fun s u => s + u.cost) 0

/-- `getMaxCombinationsForSize` (solver.ts lines 224-236); the
`unitCount` parameter is unused there as well. -/
def getMaxCombinationsForSize (size : Nat) (_unitCount : Nat) : Nat :=
  if size ≤ 2 then 10000
  else if size ≤ 3 then 5000
  else if size ≤ 4 then 2000
  else if size ≤ 5 then 50000
  else if size ≤ 6 then 20000
  else if size ≤ 7 then 5000
  else 2000

/-- `MAX_TOTAL_RESULTS` (solver.ts line 211). -/
def MAX_TOTAL_RESULTS : Nat := 2000

/-- Which code path invoked the Composition Validator — ghost data used
only to state intensional claims about validator invocations. -/
inductive FillerBranch
  | piltover
  | yordle
  | shadowIsles
  | voidRegion
  | brute
  deriving DecidableEq, Repr

/-- Ghost record of one `isValidComposition` invocation. -/
structure VEvent where
  branch : FillerBranch
  team : List GameUnit
  deriving DecidableEq, Repr

/-- Ghost per-team-size trace entry: result count after the smart phase,
cumulative smart-phase acceptances, and whether the brute-force fallback
phase was entered for this size. -/
structure SizeTraceEntry where
  size : Nat
  resultsAfterSmart : Nat
  smartTotal : Nat
  bruteAttempted : Bool
  deriving DecidableEq, Repr

/-- Mutable search state of `solveWorldRunes`: the accepted `results`,
the `seenCompositions` signature set, and the per-size `checkedCount` /
`validCount` counters.  `events`, `smartAccepted` and `sizeTrace` are
ghost instrumentation with no effect on the computed results. -/
structure SolverState where
  results : List SolverResult
  seen : List String
  checked : Nat
  valid : Nat
  events : List VEvent
  smartAccepted : Nat
  sizeTrace : List SizeTraceEntry
  deriving DecidableEq, Repr

/-- The per-run immutable context of `solveWorldRunes`: the region
catalog, the filtered unit pool, both emblems, and the region unit pools
computed at solver.ts lines 240-246. -/
structure SearchCtx where
  regions : List Region
  filteredUnits : List GameUnit
  emblem1 : String
  emblem2 : String
  emblem1Units : List GameUnit
  emblem2Units : List GameUnit
  targonUnits : List GameUnit
  piltoverUnits : List GameUnit
  yordleUnits : List GameUnit
  shadowIslesUnits : List GameUnit
  voidUnits : List GameUnit
  deriving Repr

/-- A `for (x of xs) { if (brk) break; body }` loop: the break condition
is tested at the top of every iteration. -/
def loopPre (brk : σ → Bool) (f : α → σ → σ) : List α → σ → σ
  | [], st => st
  | x :: rest, st => if brk st then st else loopPre brk f rest (f x st)

/-- A `for (x of xs) { body; if (brk) break; }` loop: the break condition
is tested after every iteration body. -/
def loopPost (brk : σ → Bool) (f : α → σ → σ) : List α → σ → σ
  | [], st => st
  | x :: rest, st =>
    let st' := f x st
    if brk st' then st' else loopPost brk f rest st'

/-- The cheap necessary-condition prefilter applied before validation in
the Piltover and Yordle filler branches (solver.ts lines 310-317): the
native-count checks for both emblem regions and the existence of a legal
carrier for each emblem. -/
def prefilterPass (regions : List Region) (emblem1 emblem2 : String)
    (team : List GameUnit) : Bool :=
  let r1Req := reqOfId regions emblem1
  let r2Req := reqOfId regions emblem2
  let r1Count := (team.filter (fun u => u.regions.contains emblem1)).length
  let r2Count := (team.filter (fun u => u.regions.contains emblem2)).length
  if r1Count + 1 < r1Req ∨ r2Count + 1 < r2Req then false
  else
    match team.find? (fun u => !(u.regions.contains emblem1)),
          team.find? (fun u => !(u.regions.contains emblem2)) with
    | some _, some _ => true
    | _, _ => false

/-- The validate-and-accept block shared verbatim by all four smart
filler branches (e.g. solver.ts lines 318-333): run the validator, on
success bump `validCount`, and append the composition unless its
signature was already seen.  Smart-phase pushes set no `totalCost`.
The `events` append and the `smartAccepted` bump are ghost. -/
def smartAccept (c : SearchCtx) (branch : FillerBranch)
    (team : List GameUnit) (st : SolverState) : SolverState :=
  let st := { st with events := st.events ++ [⟨branch, team⟩] }
  let v := isValidComposition c.regions team c.emblem1 c.emblem2
  if v.valid then
    let st := { st with valid := st.valid + 1 }
    let key := compositionKey team
    if st.seen.contains key then st
    else
      { st with
        seen := st.seen ++ [key],
        results := st.results ++
          [{ composition := ⟨team, v.emblemAssignments, v.activeRegions⟩,
             unitCount := team.length,
             regionCount := v.activeRegions.length }],
        smartAccepted := st.smartAccepted + 1 }
  else st

/-- The validate-and-accept block of the brute-force phase (solver.ts
lines 571-609): identical to the smart one except that the pushed
result also carries `totalCost` (line 599). -/
def bruteAccept (c : SearchCtx) (teamUnits : List GameUnit)
    (st : SolverState) : SolverState :=
  let st := { st with events := st.events ++ [⟨.brute, teamUnits⟩] }
  let v := isValidComposition c.regions teamUnits c.emblem1 c.emblem2
  if v.valid then
    let st := { st with valid := st.valid + 1 }
    let key := compositionKey teamUnits
    if st.seen.contains key then st
    else
      { st with
        seen := st.seen ++ [key],
        results := st.results ++
          [{ composition := ⟨teamUnits, v.emblemAssignments, v.activeRegions⟩,
             unitCount := teamUnits.length,
             regionCount := v.activeRegions.length,
             totalCost := some (sumCosts teamUnits) }] }
  else st

/-- Body of one Piltover- or Yordle-filler candidate (solver.ts lines
301-370 and 373-440; the two source blocks are verbatim identical, so
they share this definition, distinguished by the ghost `branch` tag):
deduplicate the seed units, then either validate the size-matching team
behind the prefilter, or brute-fill the remaining slots (budget 50) and
validate each filled team behind the prefilter. -/
def smartBodyChecked (c : SearchCtx) (branch : FillerBranch)
    (size maxForSize : Nat) (e1Group e2Group : List GameUnit)
    (targonUnit : GameUnit) (pair : List GameUnit)
    (st : SolverState) : SolverState :=
  let usedUnitIds :=
    e1Group.map (·.id) ++ e2Group.map (·.id) ++ [targonUnit.id] ++ pair.map (·.id)
  let teamUnits := uniqueUnits (e1Group ++ e2Group ++ [targonUnit] ++ pair)
  if teamUnits.length = size then
    let st := { st with checked := st.checked + 1 }
    if prefilterPass c.regions c.emblem1 c.emblem2 teamUnits then
      smartAccept c branch teamUnits st
    else st
  else if teamUnits.length < size then
    let remainingUnits := c.filteredUnits.filter (fun u => !(usedUnitIds.contains u.id))
    let remainingSlots := size - teamUnits.length
    let fillCombos := generateCombinations remainingUnits remainingSlots 50
    loopPre (fun st => decide (maxForSize ≤ st.checked))
      (fun fillUnits st =>
        let fullTeam := uniqueUnits (teamUnits ++ fillUnits)
        let st := { st with checked := st.checked + 1 }
        if prefilterPass c.regions c.emblem1 c.emblem2 fullTeam then
          smartAccept c branch fullTeam st
        else st)
      fillCombos st
  else st

/-- Body of one Shadow-Isles-filler candidate (solver.ts lines 443-494):
like the Piltover/Yordle body but WITHOUT the prefilter — every
size-matching candidate goes straight to the validator. -/
def smartBodyShadow (c : SearchCtx) (size maxForSize : Nat)
    (e1Group e2Group : List GameUnit) (targonUnit : GameUnit)
    (pair : List GameUnit) (st : SolverState) : SolverState :=
  let usedUnitIds :=
    e1Group.map (·.id) ++ e2Group.map (·.id) ++ [targonUnit.id] ++ pair.map (·.id)
  let teamUnits := uniqueUnits (e1Group ++ e2Group ++ [targonUnit] ++ pair)
  if teamUnits.length = size then
    let st := { st with checked := st.checked + 1 }
    smartAccept c .shadowIsles teamUnits st
  else if teamUnits.length < size then
    let remainingUnits := c.filteredUnits.filter (fun u => !(usedUnitIds.contains u.id))
    let remainingSlots := size - teamUnits.length
    let fillCombos := generateCombinations remainingUnits remainingSlots 50
    loopPre (fun st => decide (maxForSize ≤ st.checked))
      (fun fillUnits st =>
        let fullTeam := uniqueUnits (teamUnits ++ fillUnits)
        let st := { st with checked := st.checked + 1 }
        smartAccept c .shadowIsles fullTeam st)
      fillCombos st
  else st

/-- Body of one Void-filler candidate (solver.ts lines 497-548): unlike
the other three branches the seed team is NOT passed through
`uniqueUnits` (line 501), and neither is the filled team (line 527);
no prefilter either. -/
def smartBodyVoid (c : SearchCtx) (size maxForSize : Nat)
    (e1Group e2Group : List GameUnit) (targonUnit : GameUnit)
    (pair : List GameUnit) (st : SolverState) : SolverState :=
  let usedUnitIds :=
    e1Group.map (·.id) ++ e2Group.map (·.id) ++ [targonUnit.id] ++ pair.map (·.id)
  let teamUnits := e1Group ++ e2Group ++ [targonUnit] ++ pair
  if teamUnits.length = size then
    let st := { st with checked := st.checked + 1 }
    smartAccept c .voidRegion teamUnits st
  else if teamUnits.length < size then
    let remainingUnits := c.filteredUnits.filter (fun u => !(usedUnitIds.contains u.id))
    let remainingSlots := size - teamUnits.length
    let fillCombos := generateCombinations remainingUnits remainingSlots 50
    loopPre (fun st => decide (maxForSize ≤ st.checked))
      (fun fillUnits st =>
        let fullTeam := teamUnits ++ fillUnits
        let st := { st with checked := st.checked + 1 }
        smartAccept c .voidRegion fullTeam st)
      fillCombos st
  else st

/-- One iteration of the `targonUnit` loop (solver.ts lines 299-551):
the four filler-pair loops in their fixed priority order (Piltover,
Yordle, Shadow Isles, Void), each over the first 10 pairs, each
breaking on the per-size budget at the top of every iteration. -/
def targonBody (c : SearchCtx) (size maxForSize : Nat)
    (piltoverPairs yordlePairs shadowIslesPairs voidPairs : List (List GameUnit))
    (e1Group e2Group : List GameUnit) (targonUnit : GameUnit)
    (st : SolverState) : SolverState :=
  let brk := fun (st : SolverState) => decide (maxForSize ≤ st.checked)
  let st := loopPre brk
    (smartBodyChecked c .piltover size maxForSize e1Group e2Group targonUnit)
    (piltoverPairs.take 10) st
  let st := loopPre brk
    (smartBodyChecked c .yordle size maxForSize e1Group e2Group targonUnit)
    (yordlePairs.take 10) st
  let st := loopPre brk
    (smartBodyShadow c size maxForSize e1Group e2Group targonUnit)
    (shadowIslesPairs.take 10) st
  let st := loopPre brk
    (smartBodyVoid c size maxForSize e1Group e2Group targonUnit)
    (voidPairs.take 10) st
  st

/-- The smart phase for one team size (solver.ts lines 279-558): build
the emblem-region groups, the anchor (Targon) options and the filler
pairs, then the three nested loops over the first 60 × 60 groups and 10
anchors, each loop breaking on the per-size budget after each body. -/
def smartPhase (c : SearchCtx) (size maxForSize need1 need2 : Nat)
    (st : SolverState) : SolverState :=
  let emblem1Groups :=
    if need1 > 0 then generateCombinations c.emblem1Units need1 80 else [[]]
  let emblem2Groups :=
    if need2 > 0 then generateCombinations c.emblem2Units need2 80 else [[]]
  let targonOptions := c.targonUnits.take 10
  let piltoverPairs := generateCombinations c.piltoverUnits 2 20
  let yordlePairs := generateCombinations c.yordleUnits 2 20
  let shadowIslesPairs := generateCombinations c.shadowIslesUnits 2 20
  let voidPairs := generateCombinations c.voidUnits 2 20
  let brk := fun (st : SolverState) => decide (maxForSize ≤ st.checked)
  loopPost brk
    (fun e1Group st =>
      loopPost brk
        (fun e2Group st =>
          loopPost brk
            (targonBody c size maxForSize piltoverPairs yordlePairs
              shadowIslesPairs voidPairs e1Group e2Group)
            targonOptions st)
        (emblem2Groups.take 60) st)
    (emblem1Groups.take 60) st

/-- The brute-force enumeration loop (solver.ts lines 564-665): bump
`checkedCount`, break permanently on the global result cap or once the
per-size budget is exceeded, otherwise validate and accept. -/
def bruteLoop (c : SearchCtx) (maxForSize : Nat) :
    List (List GameUnit) → SolverState → SolverState
  | [], st => st
  | teamUnits :: rest, st =>
    let st := { st with checked := st.checked + 1 }
    if MAX_TOTAL_RESULTS ≤ st.results.length then st
    else if maxForSize < st.checked then st
    else bruteLoop c maxForSize rest (bruteAccept c teamUnits st)

/-- The body of one team-size iteration (solver.ts lines 253-677):
reset the per-size counters, compute the size budget and the emblem
needs, run the smart phase when its gate holds (line 279), then run the
brute-force fallback iff fewer than 10 results were accepted so far
(line 561).  The `sizeTrace` append is ghost. -/
def sizeBody (c : SearchCtx) (size : Nat) (st : SolverState) : SolverState :=
  let st := { st with checked := 0, valid := 0 }
  let maxForSize := getMaxCombinationsForSize size c.filteredUnits.length
  let req1 := reqOfId c.regions c.emblem1
  let req2 := reqOfId c.regions c.emblem2
  let need1 := req1 - 1
  let need2 := req2 - 1
  let st :=
    if 5 ≤ size ∧ need1 ≤ c.emblem1Units.length ∧
        need2 ≤ c.emblem2Units.length ∧ 1 ≤ c.targonUnits.length then
      smartPhase c size maxForSize need1 need2 st
    else st
  let st :=
    { st with sizeTrace := st.sizeTrace ++
        [⟨size, st.results.length, st.smartAccepted, decide (st.results.length < 10)⟩] }
  if st.results.length < 10 then
    bruteLoop c maxForSize
      (generateCombinations c.filteredUnits size (maxForSize - st.checked)) st
  else st

/-- The size loop (solver.ts lines 253-254): iterate the sizes, breaking
at the top of each iteration once the global result cap is reached. -/
def sizeLoop (c : SearchCtx) : List Nat → SolverState → SolverState :=
  loopPre (fun st => decide (MAX_TOTAL_RESULTS ≤ st.results.length)) (sizeBody c)

/-- The final ranking comparator (solver.ts lines 680-690): unit count
ascending, then `totalCost ?? 0` ascending, then region count
descending. -/
def resultCmp (a b : SolverResult) : Int :=
  if a.unitCount ≠ b.unitCount then (a.unitCount : Int) - (b.unitCount : Int)
  else
    let aCost : Int := (a.totalCost.getD 0 : Nat)
    let bCost : Int := (b.totalCost.getD 0 : Nat)
    if aCost ≠ bCost then aCost - bCost
    else (b.regionCount : Int) - (a.regionCount : Int)

/-- Strict version of `resultCmp` for the stable sort. -/
def resultLt (a b : SolverResult) : Bool :=
  decide (resultCmp a b < 0)

/-- The initial solver state. -/
def initState : SolverState :=
  ⟨[], [], 0, 0, [], 0, []⟩

/-- `solveWorldRunes` (solver.ts lines 156-703) with the module-level
catalog passed explicitly, returning the full final state including the
ghost instrumentation.  Console logging and the DOM debug element are
dropped; everything else is line for line. -/
def runSolver (catalogUnits : List GameUnit) (regions : List Region)
    (emblem1 emblem2 : String) (config : SolverConfig) : SolverState :=
  if emblem1 = "" ∨ emblem2 = "" then initState
  else
    match getRegionById regions emblem1, getRegionById regions emblem2 with
    | some _, some _ =>
      let filteredUnits := filterUnits catalogUnits config
      let c : SearchCtx :=
        { regions := regions
          filteredUnits := filteredUnits
          emblem1 := emblem1
          emblem2 := emblem2
          emblem1Units := filteredUnits.filter (fun u => u.regions.contains emblem1)
          emblem2Units := filteredUnits.filter (fun u => u.regions.contains emblem2)
          targonUnits := filteredUnits.filter (fun u => u.regions.contains "targon")
          piltoverUnits := filteredUnits.filter (fun u => u.regions.contains "piltover")
          yordleUnits := filteredUnits.filter (fun u => u.regions.contains "yordle")
          shadowIslesUnits := filteredUnits.filter (fun u => u.regions.contains "shadow-isles")
          voidUnits := filteredUnits.filter (fun u => u.regions.contains "void") }
      let effectiveMaxUnits := min config.maxUnits (min config.maxBoardSize filteredUnits.length)
      let sizes := List.range' config.minUnits (effectiveMaxUnits + 1 - config.minUnits)
      let st := sizeLoop c sizes initState
      { st with results := sortBy resultLt st.results }
    | _, _ => initState

/-- The returned result list of `solveWorldRunes`. -/
def solveWorldRunes (catalogUnits : List GameUnit) (regions : List Region)
    (emblem1 emblem2 : String) (config : SolverConfig) : List SolverResult :=
  (runSolver catalogUnits regions emblem1 emblem2 config).results

/-! Embedding of the unlock filter and suggestion engine of
`ResultsDisplay.tsx` (lines 27-73). -/

/-- The unlock gate itself (ResultsDisplay.tsx line 30): drop any result
containing an unlockable unit that is not currently unlocked. -/
def unlockGate (unlockedIds : List String) (results : List SolverResult) :
    List SolverResult :=
  results.filter (fun r =>
    !(r.composition.units.any (fun u => u.unlockable && !(unlockedIds.contains u.id))))

/-- The fixed Targon equivalence class (ResultsDisplay.tsx line 34). -/
def targonSet : List String :=
  ["aphelios", "leona", "zoe", "taric"]

/-- `normalizeId` (ResultsDisplay.tsx line 35). -/
def normalizeId (id : String) : String :=
  if targonSet.contains id then "targon-1of4" else id

/-- `unitSignature` (ResultsDisplay.tsx lines 36-40). -/
def unitSignature (r : SolverResult) : String :=
  String.intercalate "|"
    (sortBy strLt (r.composition.units.map (fun u => normalizeId u.id)))

/-- The signature deduplication map (ResultsDisplay.tsx lines 33-47):
keep the first result per signature, in input order. -/
def dedupBySignature (seen : List String) : List SolverResult → List SolverResult
  | [] => []
  | r :: rest =>
    let sig := unitSignature r
    if seen.contains sig then dedupBySignature seen rest
    else r :: dedupBySignature (seen ++ [sig]) rest

/-- The filtered list produced by the unlock filter (ResultsDisplay.tsx
lines 27-47): the unlock gate followed by the signature dedup. -/
def applyUnlockFilter (results : List SolverResult) (unlockedIds : List String) :
    List SolverResult :=
  dedupBySignature [] (unlockGate unlockedIds results)

/-- `list.length ? Math.min(...list.map(r => r.unitCount)) : 0`
(ResultsDisplay.tsx lines 50-51). -/
def minimalUnitCount (l : List SolverResult) : Nat :=
  match l.map (·.unitCount) with
  | [] => 0
  | x :: xs => xs.foldl min x

/-- Number of currently locked unlockable units in a result
(ResultsDisplay.tsx lines 61-62, 66). -/
def lockedCount (unlockedIds : List String) (r : SolverResult) : Nat :=
  (r.composition.units.filter (fun u => u.unlockable && !(unlockedIds.contains u.id))).length

/-- The unlock-suggestion set (ResultsDisplay.tsx lines 50-73): when the
filtered minimum unit count exceeds the unfiltered minimum, take the
minimal-size unfiltered results, pick the one needing the fewest locked
units (stable sort, first element), and report its locked units
deduplicated by id. -/
def unlockSuggestions (results : List SolverResult) (unlockedIds : List String) :
    List GameUnit :=
  let filtered := applyUnlockFilter results unlockedIds
  let minimalAll := minimalUnitCount results
  let minimalFiltered := minimalUnitCount filtered
  let minimalAllResults := results.filter (fun r => r.unitCount == minimalAll)
  if minimalAll < minimalFiltered ∧ minimalAllResults ≠ [] then
    let sortedByLocked :=
      sortBy (fun a b => decide (lockedCount unlockedIds a < lockedCount unlockedIds b))
        minimalAllResults
    match sortedByLocked with
    | [] => []
    | bestForUnlocks :: _ =>
      let lockedNeeded := bestForUnlocks.composition.units.filter
        (fun u => u.unlockable && !(unlockedIds.contains u.id))
      uniqueUnits lockedNeeded
  else []

/-! Invariant predicates used by the theorems below. -/

/-- The validity invariant of a returned result: at least four active
regions, and both emblem assignments target a unit of the composition
that natively lacks the assigned emblem's region. -/
def ResultOk (r : SolverResult) : Prop :=
  4 ≤ r.composition.activeRegions.length ∧
  r.composition.emblemAssignments.length = 2 ∧
  ∀ a ∈ r.composition.emblemAssignments,
    ∃ u ∈ r.composition.units, u.id = a.unitId ∧ a.region ∉ u.regions

/-- The cost invariant of a returned result: `totalCost` is either
absent (smart-phase pushes) or the sum of the unit costs (brute-force
pushes). -/
def CostOk (r : SolverResult) : Prop :=
  r.totalCost = none ∨ r.totalCost = some (sumCosts r.composition.units)

/-- The prefilter invariant of a validator invocation: Piltover- and
Yordle-branch candidates reach the validator only after passing the
cheap necessary-condition prefilter. -/
def EventOk (regions : List Region) (e1 e2 : String) (ev : VEvent) : Prop :=
  ev.branch = .piltover ∨ ev.branch = .yordle →
    prefilterPass regions e1 e2 ev.team = true

/-- The fallback-gate invariant of a per-size trace entry: the
brute-force phase is attempted iff the TOTAL number of accepted results
after this size's smart phase is still below 10. -/
def TraceOk (t : SizeTraceEntry) : Prop :=
  t.bruteAttempted = decide (t.resultsAfterSmart < 10)

/-- The combined state invariant propagated through the search. -/
def StOk (c : SearchCtx) (st : SolverState) : Prop :=
  (∀ r ∈ st.results, ResultOk r ∧ CostOk r) ∧
  (∀ ev ∈ st.events, EventOk c.regions c.emblem1 c.emblem2 ev) ∧
  (∀ t ∈ st.sizeTrace, TraceOk t)

/-! Total accessors for the first element of result / event / trace
lists, used to state closed witness theorems. -/

/-- First result of a result list (dummy on empty). -/
def headResult (l : List SolverResult) : SolverResult :=
  match l with
  | [] => ⟨⟨[], [], []⟩, 0, 0, none⟩
  | r :: _ => r

/-- First event of an event list (dummy on empty). -/
def headEvent (l : List VEvent) : VEvent :=
  match l with
  | [] => ⟨.brute, []⟩
  | e :: _ => e

/-- First entry of a size trace (dummy on empty). -/
def headTrace (l : List SizeTraceEntry) : SizeTraceEntry :=
  match l with
  | [] => ⟨0, 0, 0, false⟩
  | t :: _ => t

/-! Concrete catalogs and configurations used by witnesses and
counterexamples. -/

/-- Catalog A: one unit for each emblem region (both requiring 2 units),
one unit that is both Targon and Void, one further Void unit, and one
filler.  The smart phase's Void filler branch builds the team
`[a, b, t, t, v]`, in which `t` occurs twice. -/
def catA : List GameUnit :=
  [⟨"a", "A", 1, ["e1"], false⟩,
   ⟨"b", "B", 1, ["e2"], false⟩,
   ⟨"t", "T", 1, ["targon", "void"], false⟩,
   ⟨"v", "V", 1, ["void"], false⟩,
   ⟨"d", "D", 1, ["dreg"], false⟩]

/-- Regions for catalog A. -/
def regsA : List Region :=
  [⟨"e1", "E1", some 2⟩, ⟨"e2", "E2", some 2⟩, ⟨"targon", "Targon", some 1⟩,
   ⟨"void", "Void", some 1⟩, ⟨"dreg", "D", some 1⟩]

/-- Configuration fixing the team size at 5. -/
def cfg55 : SolverConfig :=
  ⟨9, 5, 5, none, none⟩

/-- Catalog B: every unit natively carries emblem-1's region, so no
legal emblem-1 carrier exists in any candidate and the prefilter fails;
the only filler pair available is Shadow Isles, whose branch validates
candidates without the prefilter. -/
def catB : List GameUnit :=
  [⟨"t", "T", 1, ["targon", "e1"], false⟩,
   ⟨"s1", "S1", 1, ["shadow-isles", "e1"], false⟩,
   ⟨"s2", "S2", 1, ["shadow-isles", "e1"], false⟩,
   ⟨"f1", "F1", 1, ["e1"], false⟩,
   ⟨"f2", "F2", 1, ["e1"], false⟩]

/-- Regions for catalog B. -/
def regsB : List Region :=
  [⟨"e1", "E1", some 1⟩, ⟨"e2", "E2", some 1⟩, ⟨"targon", "Targon", some 1⟩,
   ⟨"shadow-isles", "SI", some 2⟩]

/-- Catalog C: a Piltover filler pair is available and the candidate
passes the prefilter, so the Piltover branch produces a validator
invocation. -/
def catC : List GameUnit :=
  [⟨"a", "A", 1, ["e1"], false⟩,
   ⟨"b", "B", 1, ["e2"], false⟩,
   ⟨"t", "T", 1, ["targon"], false⟩,
   ⟨"p1", "P1", 1, ["piltover"], false⟩,
   ⟨"p2", "P2", 1, ["piltover"], false⟩]

/-- Regions for catalog C. -/
def regsC : List Region :=
  [⟨"e1", "E1", some 2⟩, ⟨"e2", "E2", some 2⟩, ⟨"targon", "Targon", some 1⟩,
   ⟨"piltover", "Pilt", some 2⟩]

/-- Catalog D: five units with ten pairwise distinct single-unit
regions; every 2-unit subset activates 6 regions, so at size 2 the
brute phase floods 10 accepted results, and at size 3 the fallback gate
`results.length < 10` is already false although the smart phase never
ran (sizes below 5 skip it). -/
def catD : List GameUnit :=
  [⟨"u1", "U1", 1, ["p1", "q1"], false⟩,
   ⟨"u2", "U2", 1, ["p2", "q2"], false⟩,
   ⟨"u3", "U3", 1, ["p3", "q3"], false⟩,
   ⟨"u4", "U4", 1, ["p4", "q4"], false⟩,
   ⟨"u5", "U5", 1, ["p5", "q5"], false⟩]

/-- Regions for catalog D. -/
def regsD : List Region :=
  [⟨"e1", "E1", some 1⟩, ⟨"e2", "E2", some 1⟩,
   ⟨"p1", "R", some 1⟩, ⟨"q1", "R", some 1⟩, ⟨"p2", "R", some 1⟩,
   ⟨"q2", "R", some 1⟩, ⟨"p3", "R", some 1⟩, ⟨"q3", "R", some 1⟩,
   ⟨"p4", "R", some 1⟩, ⟨"q4", "R", some 1⟩, ⟨"p5", "R", some 1⟩,
   ⟨"q5", "R", some 1⟩]

/-- Configuration scanning team sizes 2 and 3. -/
def cfg23 : SolverConfig :=
  ⟨9, 2, 3, none, none⟩

/-- A locked unlockable unit for the unlock-filter inputs. -/
def lockedUnit : GameUnit :=
  ⟨"lk", "Locked", 3, ["r1"], true⟩

/-- A plain always-available unit for the unlock-filter inputs. -/
def plainUnit : GameUnit :=
  ⟨"pl", "Plain", 2, ["r2"], false⟩

/-- A 1-unit result that needs the locked unit. -/
def resultLocked : SolverResult :=
  ⟨⟨[lockedUnit], [], ["r1"]⟩, 1, 1, some 3⟩

/-- A 2-unit result using only always-available units. -/
def resultPlain : SolverResult :=
  ⟨⟨[plainUnit, ⟨"pl2", "Plain2", 2, ["r3"], false⟩], [], ["r2", "r3"]⟩, 2, 2, some 4⟩

/-- Unlock-filter input where the filtered list stays non-empty. -/
def resultsC9 : List SolverResult :=
  [resultLocked, resultPlain]

/-- Unlock-filter input where the filter excludes every result. -/
def resultsC10 : List SolverResult :=
  [resultLocked]

/-! Lemmas about the Composition Validator. -/

theorem find?_carrier_spec {team : List GameUnit} {e : String} {u : GameUnit}
    (h : team.find? (fun u => !(u.regions.contains e)) = some u) :
    u ∈ team ∧ e ∉ u.regions := by
  refine ⟨List.mem_of_find?_eq_some h, ?_⟩
  have hp := List.find?_some h
  simpa using hp

theorem isValid_ok {regions : List Region} {team : List GameUnit} {e1 e2 : String}
    (h : (isValidComposition regions team e1 e2).valid = true) :
    4 ≤ (isValidComposition regions team e1 e2).activeRegions.length ∧
    (isValidComposition regions team e1 e2).emblemAssignments.length = 2 ∧
    ∀ a ∈ (isValidComposition regions team e1 e2).emblemAssignments,
      ∃ u ∈ team, u.id = a.unitId ∧ a.region ∉ u.regions := by
  revert h
  unfold isValidComposition
  cases hf1 : team.find? (fun u => !(u.regions.contains e1)) with
  | none => intro h; exact absurd h (by simp)
  | some u1 =>
    cases hf2 : team.find? (fun u => !(u.regions.contains e2)) with
    | none => intro h; exact absurd h (by simp)
    | some u2 =>
      obtain ⟨hm1, hr1⟩ := find?_carrier_spec hf1
      obtain ⟨hm2, hr2⟩ := find?_carrier_spec hf2
      simp only []
      split
      · intro h; exact absurd h (by simp)
      · intro _
        rename_i hlen
        refine ⟨by dsimp only; omega, rfl, ?_⟩
        intro a ha
        simp only [List.mem_cons, List.mem_singleton] at ha
        rcases ha with rfl | rfl | hfalse
        · exact ⟨u1, hm1, rfl, hr1⟩
        · exact ⟨u2, hm2, rfl, hr2⟩
        · exact absurd hfalse (List.not_mem_nil a)

/-! Preservation of the state invariant through the search loops. -/

theorem loopPre_preserve (P : σ → Prop) (brk : σ → Bool) (f : α → σ → σ)
    (hf : ∀ x st, P st → P (f x st)) :
    ∀ (xs : List α) (st : σ), P st → P (loopPre brk f xs st) := by
  intro xs
  induction xs with
  | nil => intro st h; simpa [loopPre] using h
  | cons x rest ih =>
    intro st h
    unfold loopPre
    split
    · exact h
    · exact ih _ (hf x st h)

theorem loopPost_preserve (P : σ → Prop) (brk : σ → Bool) (f : α → σ → σ)
    (hf : ∀ x st, P st → P (f x st)) :
    ∀ (xs : List α) (st : σ), P st → P (loopPost brk f xs st) := by
  intro xs
  induction xs with
  | nil => intro st h; simpa [loopPost] using h
  | cons x rest ih =>
    intro st h
    unfold loopPost
    dsimp only
    split
    · exact hf x st h
    · exact ih _ (hf x st h)

theorem smartAccept_preserve {c : SearchCtx} {branch : FillerBranch}
    {team : List GameUnit} {st : SolverState}
    (hpre : branch = .piltover ∨ branch = .yordle →
      prefilterPass c.regions c.emblem1 c.emblem2 team = true)
    (h : StOk c st) : StOk c (smartAccept c branch team st) := by
  obtain ⟨hres, hev, htr⟩ := h
  unfold smartAccept
  dsimp only
  split
  · rename_i hvalid
    split
    · refine ⟨hres, ?_, htr⟩
      intro ev hm
      rcases List.mem_append.mp hm with hm | hm
      · exact hev ev hm
      · rcases List.mem_singleton.mp hm with rfl
        exact hpre
    · refine ⟨?_, ?_, htr⟩
      · intro r hm
        rcases List.mem_append.mp hm with hm | hm
        · exact hres r hm
        · rcases List.mem_singleton.mp hm with rfl
          obtain ⟨h1, h2, h3⟩ := isValid_ok hvalid
          exact ⟨⟨h1, h2, h3⟩, Or.inl rfl⟩
      · intro ev hm
        rcases List.mem_append.mp hm with hm | hm
        · exact hev ev hm
        · rcases List.mem_singleton.mp hm with rfl
          exact hpre
  · refine ⟨hres, ?_, htr⟩
    intro ev hm
    rcases List.mem_append.mp hm with hm | hm
    · exact hev ev hm
    · rcases List.mem_singleton.mp hm with rfl
      exact hpre

theorem bruteAccept_preserve {c : SearchCtx} {team : List GameUnit}
    {st : SolverState} (h : StOk c st) : StOk c (bruteAccept c team st) := by
  obtain ⟨hres, hev, htr⟩ := h
  unfold bruteAccept
  dsimp only
  split
  · rename_i hvalid
    split
    · refine ⟨hres, ?_, htr⟩
      intro ev hm
      rcases List.mem_append.mp hm with hm | hm
      · exact hev ev hm
      · rcases List.mem_singleton.mp hm with rfl
        intro hcontra
        rcases hcontra with hcontra | hcontra <;> exact absurd hcontra (by simp)
    · refine ⟨?_, ?_, htr⟩
      · intro r hm
        rcases List.mem_append.mp hm with hm | hm
        · exact hres r hm
        · rcases List.mem_singleton.mp hm with rfl
          obtain ⟨h1, h2, h3⟩ := isValid_ok hvalid
          exact ⟨⟨h1, h2, h3⟩, Or.inr rfl⟩
      · intro ev hm
        rcases List.mem_append.mp hm with hm | hm
        · exact hev ev hm
        · rcases List.mem_singleton.mp hm with rfl
          intro hcontra
          rcases hcontra with hcontra | hcontra <;> exact absurd hcontra (by simp)
  · refine ⟨hres, ?_, htr⟩
    intro ev hm
    rcases List.mem_append.mp hm with hm | hm
    · exact hev ev hm
    · rcases List.mem_singleton.mp hm with rfl
      intro hcontra
      rcases hcontra with hcontra | hcontra <;> exact absurd hcontra (by simp)

theorem smartBodyChecked_preserve {c : SearchCtx} (branch : FillerBranch)
    (size maxForSize : Nat) (e1Group e2Group : List GameUnit)
    (targonUnit : GameUnit) (pair : List GameUnit) {st : SolverState}
    (h : StOk c st) :
    StOk c (smartBodyChecked c branch size maxForSize e1Group e2Group targonUnit pair st) := by
  unfold smartBodyChecked
  dsimp only
  split
  · split
    · rename_i hpre
      exact smartAccept_preserve (fun _ => hpre) h
    · exact h
  · split
    · refine loopPre_preserve (StOk c) _ _ ?_ _ _ h
      intro fillUnits st' h'
      dsimp only
      split
      · rename_i hpre
        exact smartAccept_preserve (fun _ => hpre) h'
      · exact h'
    · exact h

theorem smartBodyShadow_preserve {c : SearchCtx}
    (size maxForSize : Nat) (e1Group e2Group : List GameUnit)
    (targonUnit : GameUnit) (pair : List GameUnit) {st : SolverState}
    (h : StOk c st) :
    StOk c (smartBodyShadow c size maxForSize e1Group e2Group targonUnit pair st) := by
  unfold smartBodyShadow
  dsimp only
  split
  · exact smartAccept_preserve (by rintro (hc | hc) <;> exact FillerBranch.noConfusion hc) h
  · split
    · refine loopPre_preserve (StOk c) _ _ ?_ _ _ h
      intro fillUnits st' h'
      exact smartAccept_preserve (by rintro (hc | hc) <;> exact FillerBranch.noConfusion hc) h'
    · exact h

theorem smartBodyVoid_preserve {c : SearchCtx}
    (size maxForSize : Nat) (e1Group e2Group : List GameUnit)
    (targonUnit : GameUnit) (pair : List GameUnit) {st : SolverState}
    (h : StOk c st) :
    StOk c (smartBodyVoid c size maxForSize e1Group e2Group targonUnit pair st) := by
  unfold smartBodyVoid
  dsimp only
  split
  · exact smartAccept_preserve (by rintro (hc | hc) <;> exact FillerBranch.noConfusion hc) h
  · split
    · refine loopPre_preserve (StOk c) _ _ ?_ _ _ h
      intro fillUnits st' h'
      exact smartAccept_preserve (by rintro (hc | hc) <;> exact FillerBranch.noConfusion hc) h'
    · exact h

theorem targonBody_preserve {c : SearchCtx} (size maxForSize : Nat)
    (piltoverPairs yordlePairs shadowIslesPairs voidPairs : List (List GameUnit))
    (e1Group e2Group : List GameUnit) (targonUnit : GameUnit) {st : SolverState}
    (h : StOk c st) :
    StOk c (targonBody c size maxForSize piltoverPairs yordlePairs shadowIslesPairs
      voidPairs e1Group e2Group targonUnit st) := by
  unfold targonBody
  dsimp only
  refine loopPre_preserve (StOk c) _ _ ?_ _ _
    (loopPre_preserve (StOk c) _ _ ?_ _ _
      (loopPre_preserve (StOk c) _ _ ?_ _ _
        (loopPre_preserve (StOk c) _ _ ?_ _ _ h)))
  · intro pair st' h'
    exact smartBodyVoid_preserve _ _ _ _ _ _ h'
  · intro pair st' h'
    exact smartBodyShadow_preserve _ _ _ _ _ _ h'
  · intro pair st' h'
    exact smartBodyChecked_preserve _ _ _ _ _ _ _ h'
  · intro pair st' h'
    exact smartBodyChecked_preserve _ _ _ _ _ _ _ h'

theorem smartPhase_preserve {c : SearchCtx} (size maxForSize need1 need2 : Nat)
    {st : SolverState} (h : StOk c st) :
    StOk c (smartPhase c size maxForSize need1 need2 st) := by
  unfold smartPhase
  dsimp only
  refine loopPost_preserve (StOk c) _ _ ?_ _ _ h
  intro e1Group st1 h1
  refine loopPost_preserve (StOk c) _ _ ?_ _ _ h1
  intro e2Group st2 h2
  refine loopPost_preserve (StOk c) _ _ ?_ _ _ h2
  intro targonUnit st3 h3
  exact targonBody_preserve _ _ _ _ _ _ _ _ _ h3

theorem bruteLoop_preserve {c : SearchCtx} {maxForSize : Nat} :
    ∀ (teams : List (List GameUnit)) (st : SolverState),
      StOk c st → StOk c (bruteLoop c maxForSize teams st) := by
  intro teams
  induction teams with
  | nil => intro st h; simpa [bruteLoop] using h
  | cons t rest ih =>
    intro st h
    unfold bruteLoop
    dsimp only
    split
    · exact h
    · split
      · exact h
      · exact ih _ (bruteAccept_preserve h)

theorem stok_trace_append {c : SearchCtx} {st : SolverState} {e : SizeTraceEntry}
    (h : StOk c st) (he : TraceOk e) :
    StOk c { st with sizeTrace := st.sizeTrace ++ [e] } := by
  obtain ⟨hres, hev, htr⟩ := h
  refine ⟨hres, hev, ?_⟩
  intro t hm
  rcases List.mem_append.mp hm with hm | hm
  · exact htr t hm
  · rcases List.mem_singleton.mp hm with rfl
    exact he

theorem sizeBody_preserve {c : SearchCtx} (size : Nat) {st : SolverState}
    (h : StOk c st) : StOk c (sizeBody c size st) := by
  unfold sizeBody
  dsimp only
  have h1 : ∀ st1 : SolverState, StOk c st1 →
      StOk c { st1 with sizeTrace := st1.sizeTrace ++
        [⟨size, st1.results.length, st1.smartAccepted, decide (st1.results.length < 10)⟩] } :=
    fun st1 h1 => stok_trace_append h1 rfl
  split
  · split
    · exact bruteLoop_preserve _ _ (h1 _ (smartPhase_preserve _ _ _ _ h))
    · exact h1 _ (smartPhase_preserve _ _ _ _ h)
  · split
    · exact bruteLoop_preserve _ _ (h1 _ h)
    · exact h1 _ h

theorem sizeLoop_preserve {c : SearchCtx} (sizes : List Nat) {st : SolverState}
    (h : StOk c st) : StOk c (sizeLoop c sizes st) := by
  unfold sizeLoop
  exact loopPre_preserve (StOk c) _ _ (fun size st' h' => sizeBody_preserve size h') sizes st h

theorem sortInsert_perm (lt : α → α → Bool) (x : α) :
    ∀ l : List α, (sortInsert lt x l).Perm (x :: l) := by
  intro l
  induction l with
  | nil => simp [sortInsert]
  | cons y ys ih =>
    unfold sortInsert
    split
    · exact (ih.cons y).trans (List.Perm.swap x y ys)
    · exact List.Perm.refl _

theorem sortBy_perm (lt : α → α → Bool) :
    ∀ l : List α, (sortBy lt l).Perm l := by
  intro l
  induction l with
  | nil => simp [sortBy]
  | cons x xs ih =>
    have : sortBy lt (x :: xs) = sortInsert lt x (sortBy lt xs) := rfl
    rw [this]
    exact (sortInsert_perm lt x (sortBy lt xs)).trans (ih.cons x)

theorem mem_sortBy {lt : α → α → Bool} {l : List α} {a : α} :
    a ∈ sortBy lt l ↔ a ∈ l :=
  (sortBy_perm lt l).mem_iff

theorem initState_ok (c : SearchCtx) : StOk c initState := by
  refine ⟨?_, ?_, ?_⟩ <;> intro x hm <;> exact absurd hm (List.not_mem_nil x)

theorem runSolver_invariant (catalogUnits : List GameUnit) (regions : List Region)
    (emblem1 emblem2 : String) (config : SolverConfig) :
    (∀ r ∈ (runSolver catalogUnits regions emblem1 emblem2 config).results,
        ResultOk r ∧ CostOk r) ∧
    (∀ ev ∈ (runSolver catalogUnits regions emblem1 emblem2 config).events,
        EventOk regions emblem1 emblem2 ev) ∧
    (∀ t ∈ (runSolver catalogUnits regions emblem1 emblem2 config).sizeTrace,
        TraceOk t) := by
  unfold runSolver
  split
  · exact initState_ok ⟨regions, [], emblem1, emblem2, [], [], [], [], [], [], []⟩
  · split
    · rename_i r1 r2 heq1 heq2
      dsimp only
      obtain ⟨hres, hev, htr⟩ :=
        sizeLoop_preserve (c := {
          regions := regions
          filteredUnits := filterUnits catalogUnits config
          emblem1 := emblem1
          emblem2 := emblem2
          emblem1Units := (filterUnits catalogUnits config).filter (fun u => u.regions.contains emblem1)
          emblem2Units := (filterUnits catalogUnits config).filter (fun u => u.regions.contains emblem2)
          targonUnits := (filterUnits catalogUnits config).filter (fun u => u.regions.contains "targon")
          piltoverUnits := (filterUnits catalogUnits config).filter (fun u => u.regions.contains "piltover")
          yordleUnits := (filterUnits catalogUnits config).filter (fun u => u.regions.contains "yordle")
          shadowIslesUnits := (filterUnits catalogUnits config).filter (fun u => u.regions.contains "shadow-isles")
          voidUnits := (filterUnits catalogUnits config).filter (fun u => u.regions.contains "void") })
          (List.range' config.minUnits
            (min config.maxUnits (min config.maxBoardSize (filterUnits catalogUnits config).length) + 1 -
              config.minUnits))
          (initState_ok _)
      refine ⟨?_, hev, htr⟩
      intro r hm
      exact hres r (mem_sortBy.mp hm)
    · exact initState_ok ⟨regions, [], emblem1, emblem2, [], [], [], [], [], [], []⟩

/-! Lemmas about the Combination Generator. -/

theorem gcLoop_cons_eq (b size : Nat) (x : α) (rest current : List α) (count : Nat) :
    gcLoop b size (x :: rest) current count =
      if b ≤ count then ([], count)
      else
        ((btkB b size rest (current ++ [x]) count).1 ++
            (gcLoop b size rest current
              (btkB b size rest (current ++ [x]) count).2).1,
          (gcLoop b size rest current
            (btkB b size rest (current ++ [x]) count).2).2) :=
  rfl

theorem gcLoop_count (b size : Nat) :
    ∀ (suf cur : List α) (cnt : Nat),
      (gcLoop b size suf cur cnt).2 = cnt + (gcLoop b size suf cur cnt).1.length ∧
      (cnt ≤ b → (gcLoop b size suf cur cnt).2 ≤ b) := by
  intro suf
  induction suf with
  | nil =>
    intro cur cnt
    exact ⟨by simp [gcLoop], fun h => by simpa [gcLoop] using h⟩
  | cons x rest ih =>
    intro cur cnt
    have hbtk : ∀ (cur' : List α) (cnt' : Nat),
        (btkB b size rest cur' cnt').2 = cnt' + (btkB b size rest cur' cnt').1.length ∧
        (cnt' ≤ b → (btkB b size rest cur' cnt').2 ≤ b) := by
      intro cur' cnt'
      unfold btkB
      split
      · simp
      · split
        · rename_i hb _
          exact ⟨by simp, fun h => by simp; omega⟩
        · split
          · simp
          · exact ih cur' cnt'
    rw [gcLoop_cons_eq]
    split
    · simp
    · obtain ⟨h1c, h1b⟩ := hbtk (cur ++ [x]) cnt
      obtain ⟨h2c, h2b⟩ := ih cur (btkB b size rest (cur ++ [x]) cnt).2
      rename_i hb
      constructor
      · dsimp only
        rw [List.length_append]
        omega
      · intro h
        dsimp only
        exact h2b (h1b h)

theorem btkB_count (b size : Nat) (suf cur : List α) (cnt : Nat) :
    (btkB b size suf cur cnt).2 = cnt + (btkB b size suf cur cnt).1.length ∧
    (cnt ≤ b → (btkB b size suf cur cnt).2 ≤ b) := by
  unfold btkB
  split
  · simp
  · split
    · rename_i hb _
      exact ⟨by simp, fun h => by simp; omega⟩
    · split
      · simp
      · exact gcLoop_count b size suf cur cnt

theorem gcLoop_shape (b size : Nat) :
    ∀ (suf cur : List α) (cnt : Nat), cur.length < size →
      ∀ l ∈ (gcLoop b size suf cur cnt).1,
        ∃ t, t ≠ [] ∧ l = cur ++ t ∧ t.Sublist suf ∧ l.length = size := by
  intro suf
  induction suf with
  | nil =>
    intro cur cnt _ l hl
    simp [gcLoop] at hl
  | cons x rest ih =>
    intro cur cnt hcur l hl
    have hbtk : ∀ (cur' : List α) (cnt' : Nat), cur'.length ≤ size →
        ∀ l ∈ (btkB b size rest cur' cnt').1,
          ∃ t, l = cur' ++ t ∧ t.Sublist rest ∧ l.length = size := by
      intro cur' cnt' hle l hl
      unfold btkB at hl
      split at hl
      · simp at hl
      · split at hl
        · rename_i heq
          rcases List.mem_singleton.mp hl with rfl
          exact ⟨[], by simp, List.nil_sublist rest, heq⟩
        · split at hl
          · simp at hl
          · rename_i hne _
            obtain ⟨t, _, hteq, hts, hlen⟩ :=
              ih cur' cnt' (Nat.lt_of_le_of_ne hle hne) l hl
            exact ⟨t, hteq, hts, hlen⟩
    rw [gcLoop_cons_eq] at hl
    split at hl
    · simp at hl
    · dsimp only at hl
      rcases List.mem_append.mp hl with hl | hl
      · obtain ⟨t, hteq, hts, hlen⟩ :=
          hbtk (cur ++ [x]) cnt (by rw [List.length_append]; simpa using hcur) l hl
        refine ⟨x :: t, by simp, ?_, List.Sublist.cons₂ x hts, hlen⟩
        rw [hteq, List.append_assoc]
        rfl
      · obtain ⟨t, htne, hteq, hts, hlen⟩ := ih cur _ hcur l hl
        exact ⟨t, htne, hteq, hts.trans (List.sublist_cons_self x rest), hlen⟩

theorem btkB_shape (b size : Nat) (suf cur : List α) (cnt : Nat)
    (hle : cur.length ≤ size) :
    ∀ l ∈ (btkB b size suf cur cnt).1,
      ∃ t, l = cur ++ t ∧ t.Sublist suf ∧ l.length = size := by
  intro l hl
  unfold btkB at hl
  split at hl
  · simp at hl
  · split at hl
    · rename_i heq
      rcases List.mem_singleton.mp hl with rfl
      exact ⟨[], by simp, List.nil_sublist suf, heq⟩
    · split at hl
      · simp at hl
      · rename_i hne _
        obtain ⟨t, _, hteq, hts, hlen⟩ :=
          gcLoop_shape b size suf cur cnt (Nat.lt_of_le_of_ne hle hne) l hl
        exact ⟨t, hteq, hts, hlen⟩

theorem gcLoop_map (b size : Nat) (f : α → β) :
    ∀ (suf cur : List α) (cnt : Nat),
      gcLoop b size (suf.map f) (cur.map f) cnt =
        ((gcLoop b size suf cur cnt).1.map (List.map f),
          (gcLoop b size suf cur cnt).2) := by
  intro suf
  induction suf with
  | nil =>
    intro cur cnt
    simp [gcLoop]
  | cons x rest ih =>
    intro cur cnt
    have hbtk : ∀ (cur' : List α) (cnt' : Nat),
        btkB b size (rest.map f) (cur'.map f) cnt' =
          ((btkB b size rest cur' cnt').1.map (List.map f),
            (btkB b size rest cur' cnt').2) := by
      intro cur' cnt'
      by_cases hb : b ≤ cnt'
      · simp [btkB, hb]
      · by_cases hlen : cur'.length = size
        · simp [btkB, hb, hlen]
        · by_cases hpr : rest.length < size - cur'.length
          · simp [btkB, hb, hlen, hpr]
          · simp only [btkB, List.length_map, if_neg hb, if_neg hlen, if_neg hpr]
            exact ih cur' cnt'
    have hmap : (x :: rest).map f = f x :: rest.map f := rfl
    rw [hmap, gcLoop_cons_eq, gcLoop_cons_eq]
    by_cases hb : b ≤ cnt
    · simp [hb]
    · simp only [if_neg hb]
      have hcx : cur.map f ++ [f x] = (cur ++ [x]).map f := by simp
      rw [hcx, hbtk (cur ++ [x]) cnt]
      dsimp only
      rw [ih cur (btkB b size rest (cur ++ [x]) cnt).2]
      simp

theorem btkB_map (b size : Nat) (f : α → β) (suf cur : List α) (cnt : Nat) :
    btkB b size (suf.map f) (cur.map f) cnt =
      ((btkB b size suf cur cnt).1.map (List.map f),
        (btkB b size suf cur cnt).2) := by
  by_cases hb : b ≤ cnt
  · simp [btkB, hb]
  · by_cases hlen : cur.length = size
    · simp [btkB, hb, hlen]
    · by_cases hpr : suf.length < size - cur.length
      · simp [btkB, hb, hlen, hpr]
      · simp only [btkB, List.length_map, if_neg hb, if_neg hlen, if_neg hpr]
        exact gcLoop_map b size f suf cur cnt

theorem generateCombinations_map (items : List α) (f : α → β) (size b : Nat) :
    generateCombinations (items.map f) size b =
      (generateCombinations items size b).map (List.map f) := by
  unfold generateCombinations
  by_cases h0 : size = 0
  · simp [h0]
  · by_cases h1 : items.length < size
    · simp [h0, h1]
    · by_cases h2 : size = items.length
      · subst h2
        simp [h0]
      · simp only [List.length_map, if_neg h0, if_neg h1, if_neg h2]
        have hnil : ([] : List β) = ([] : List α).map f := rfl
        rw [hnil, btkB_map]

theorem lex_append_cons_of_lt {x y : Nat} (h : x < y) (c a d : List Nat) :
    List.Lex (· < ·) (c ++ x :: a) (c ++ y :: d) := by
  induction c with
  | nil => exact List.Lex.rel h
  | cons c0 cs ih => exact List.Lex.cons ih

theorem lex_lt_ne {l1 l2 : List Nat} (h : List.Lex (· < ·) l1 l2) : l1 ≠ l2 := by
  induction h with
  | nil => exact fun he => List.noConfusion he
  | cons h ih =>
    intro he
    injection he with h1 h2
    exact ih h2
  | rel hr =>
    intro he
    injection he with h1 h2
    exact absurd (h1 ▸ hr) (lt_irrefl _)

theorem gcLoop_lex (b size : Nat) :
    ∀ (suf cur : List Nat) (cnt : Nat), cur.length < size →
      List.Pairwise (· < ·) (cur ++ suf) →
      List.Pairwise (fun l1 l2 => List.Lex (· < ·) l1 l2)
        (gcLoop b size suf cur cnt).1 := by
  intro suf
  induction suf with
  | nil =>
    intro cur cnt _ _
    simp [gcLoop]
  | cons x rest ih =>
    intro cur cnt hcur hp
    have hlen1 : (cur ++ [x]).length ≤ size := by
      rw [List.length_append]
      simpa using hcur
    have hbtk : ∀ (cur' : List Nat) (cnt' : Nat), cur'.length ≤ size →
        List.Pairwise (· < ·) (cur' ++ rest) →
        List.Pairwise (fun l1 l2 => List.Lex (· < ·) l1 l2)
          (btkB b size rest cur' cnt').1 := by
      intro cur' cnt' hle hp'
      unfold btkB
      split
      · simp
      · split
        · simp
        · split
          · simp
          · rename_i hne _
            exact ih cur' cnt' (Nat.lt_of_le_of_ne hle hne) hp'
    rw [gcLoop_cons_eq]
    split
    · simp
    · dsimp only
      have hp1 : List.Pairwise (· < ·) ((cur ++ [x]) ++ rest) := by
        rw [List.append_assoc]
        exact hp
      have hp2 : List.Pairwise (· < ·) (cur ++ rest) :=
        List.Pairwise.sublist
          (List.Sublist.append_left (List.sublist_cons_self x rest) cur) hp
      apply List.pairwise_append.mpr
      refine ⟨hbtk (cur ++ [x]) cnt hlen1 hp1, ih cur _ hcur hp2, ?_⟩
      intro l1 hl1 l2 hl2
      obtain ⟨t1, h1eq, h1s, _⟩ := btkB_shape b size rest (cur ++ [x]) cnt hlen1 l1 hl1
      obtain ⟨t2, ht2ne, h2eq, h2s, _⟩ := gcLoop_shape b size rest cur _ hcur l2 hl2
      cases t2 with
      | nil => exact absurd rfl ht2ne
      | cons y t2' =>
        have hy : y ∈ rest := h2s.subset (List.mem_cons_self y t2')
        have hxy : x < y :=
          (List.pairwise_cons.mp (List.pairwise_append.mp hp).2.1).1 y hy
        rw [h1eq, h2eq, List.append_assoc]
        exact lex_append_cons_of_lt hxy cur t1 t2'

theorem btkB_lex (b size : Nat) (suf cur : List Nat) (cnt : Nat)
    (hle : cur.length ≤ size) (hp : List.Pairwise (· < ·) (cur ++ suf)) :
    List.Pairwise (fun l1 l2 => List.Lex (· < ·) l1 l2)
      (btkB b size suf cur cnt).1 := by
  unfold btkB
  split
  · simp
  · split
    · simp
    · split
      · simp
      · rename_i hne _
        exact gcLoop_lex b size suf cur cnt (Nat.lt_of_le_of_ne hle hne) hp

theorem generateCombinations_shape (items : List α) (k b : Nat) :
    ∀ l ∈ generateCombinations items k b, l.length = k ∧ l.Sublist items := by
  intro l hl
  unfold generateCombinations at hl
  split at hl
  · rename_i h0
    rcases List.mem_singleton.mp hl with rfl
    exact ⟨h0.symm, List.nil_sublist items⟩
  · split at hl
    · simp at hl
    · split at hl
      · rename_i hk
        rcases List.mem_singleton.mp hl with rfl
        exact ⟨hk.symm, List.Sublist.refl _⟩
      · obtain ⟨t, hteq, hts, hlen⟩ :=
          btkB_shape b k items [] 0 (Nat.zero_le k) l hl
        refine ⟨hlen, ?_⟩
        rw [hteq]
        exact hts

theorem gcIdx_mem_bounds (n k b : Nat) :
    ∀ ixs ∈ generateCombinations (List.range n) k b,
      List.Pairwise (· < ·) ixs ∧ ∀ i ∈ ixs, i < n := by
  intro ixs h
  obtain ⟨_, hsub⟩ := generateCombinations_shape (List.range n) k b ixs h
  refine ⟨List.Pairwise.sublist hsub (List.pairwise_lt_range n), ?_⟩
  intro i hi
  exact List.mem_range.mp (hsub.subset hi)

theorem gcIdx_lex (n k b : Nat) :
    List.Pairwise (fun l1 l2 => List.Lex (· < ·) l1 l2)
      (generateCombinations (List.range n) k b) := by
  unfold generateCombinations
  split
  · simp
  · split
    · simp
    · split
      · simp
      · exact btkB_lex b k (List.range n) [] 0 (Nat.zero_le k)
          (by simpa using List.pairwise_lt_range n)

theorem map_getD_range (l : List α) (d : α) :
    (List.range l.length).map (fun i => l.getD i d) = l := by
  apply List.ext_get
  · simp
  · intro n h1 h2
    simp [List.getD_eq_getElem?_getD, List.getElem?_eq_getElem h2]

theorem filterMap_get?_eq_map_getD (l : List α) (d : α) :
    ∀ ixs : List Nat, (∀ i ∈ ixs, i < l.length) →
      ixs.filterMap (fun i => l.get? i) = ixs.map (fun i => l.getD i d) := by
  intro ixs
  induction ixs with
  | nil => intro _; rfl
  | cons i rest ih =>
    intro h
    have hi : i < l.length := h i (List.mem_cons_self i rest)
    have hq : l.get? i = some l[i] := by
      rw [List.get?_eq_getElem?]
      exact List.getElem?_eq_getElem hi
    have hgetD : l.getD i d = l[i] := by
      rw [List.getD_eq_getElem?_getD, List.getElem?_eq_getElem hi]
      rfl
    simp only [List.filterMap_cons, List.map_cons, hq, hgetD,
      ih (fun j hj => h j (List.mem_cons_of_mem i hj))]

/-! Lemmas about the unlock filter. -/

theorem dedupBySignature_length (seen : List String) (l : List SolverResult) :
    (dedupBySignature seen l).length ≤ l.length := by
  induction l generalizing seen with
  | nil => simp [dedupBySignature]
  | cons r rest ih =>
    unfold dedupBySignature
    dsimp only
    split
    · exact (ih _).trans (Nat.le_succ _)
    · exact Nat.succ_le_succ (ih _)

theorem dedupBySignature_subset {seen : List String} {l : List SolverResult}
    {r : SolverResult} (h : r ∈ dedupBySignature seen l) : r ∈ l := by
  induction l generalizing seen with
  | nil => simp [dedupBySignature] at h
  | cons x rest ih =>
    unfold dedupBySignature at h
    dsimp only at h
    split at h
    · exact List.mem_cons_of_mem x (ih h)
    · rcases List.mem_cons.mp h with rfl | h
      · exact List.mem_cons_self r rest
      · exact List.mem_cons_of_mem x (ih h)

theorem foldl_min_le (x : Nat) (xs : List Nat) : xs.foldl min x ≤ x := by
  induction xs generalizing x with
  | nil => exact Nat.le_refl x
  | cons y ys ih => exact (ih (min x y)).trans (Nat.min_le_left x y)

theorem foldl_min_le_mem {a : Nat} (x : Nat) {xs : List Nat} (h : a ∈ xs) :
    xs.foldl min x ≤ a := by
  induction xs generalizing x with
  | nil => exact absurd h (List.not_mem_nil a)
  | cons y ys ih =>
    rcases List.mem_cons.mp h with rfl | h
    · exact (foldl_min_le (min x a) ys).trans (Nat.min_le_right x a)
    · exact ih _ h

theorem foldl_min_cases (x : Nat) (xs : List Nat) :
    xs.foldl min x = x ∨ xs.foldl min x ∈ xs := by
  induction xs generalizing x with
  | nil => exact Or.inl rfl
  | cons y ys ih =>
    rcases ih (min x y) with h | h
    · rcases min_choice x y with hm | hm
      · exact Or.inl (h.trans hm)
      · refine Or.inr ?_
        show List.foldl min (min x y) ys ∈ y :: ys
        rw [h.trans hm]
        exact List.mem_cons_self y ys
    · exact Or.inr (List.mem_cons_of_mem y h)

theorem minimalUnitCount_le {r : SolverResult} {l : List SolverResult}
    (h : r ∈ l) : minimalUnitCount l ≤ r.unitCount := by
  cases l with
  | nil => exact absurd h (List.not_mem_nil r)
  | cons x xs =>
    show (xs.map (·.unitCount)).foldl min x.unitCount ≤ r.unitCount
    rcases List.mem_cons.mp h with rfl | h
    · exact foldl_min_le _ _
    · exact foldl_min_le_mem _ (List.mem_map_of_mem (·.unitCount) h)

theorem minimalUnitCount_mem {l : List SolverResult} (h : l ≠ []) :
    ∃ r ∈ l, minimalUnitCount l = r.unitCount := by
  cases l with
  | nil => exact absurd rfl h
  | cons x xs =>
    have : minimalUnitCount (x :: xs) = (xs.map (·.unitCount)).foldl min x.unitCount := rfl
    rcases foldl_min_cases x.unitCount (xs.map (·.unitCount)) with hc | hc
    · exact ⟨x, List.mem_cons_self x xs, this.trans hc⟩
    · obtain ⟨r, hrmem, hreq⟩ := List.mem_map.mp hc
      exact ⟨r, List.mem_cons_of_mem x hrmem, this.trans hreq.symm⟩

/-! Claim theorems. -/

/-- C1: for every SolverResult returned by search (solveWorldRunes),
the composition's list of active regions has length at least 4, and
each of the two emblem assignments targets a unit of the composition
whose native regions list does not contain the assigned emblem's
region. -/
theorem claimC1_validity_invariant (catalogUnits : List GameUnit)
    (regions : List Region) (emblem1 emblem2 : String) (config : SolverConfig) :
    ∀ r ∈ solveWorldRunes catalogUnits regions emblem1 emblem2 config,
      4 ≤ r.composition.activeRegions.length ∧
      r.composition.emblemAssignments.length = 2 ∧
      ∀ a ∈ r.composition.emblemAssignments,
        ∃ u ∈ r.composition.units, u.id = a.unitId ∧ a.region ∉ u.regions :=
  fun r hm =>
    ((runSolver_invariant catalogUnits regions emblem1 emblem2 config).1 r hm).1

/-- Witness for C1: the first composition returned on catalog A indeed
has at least 4 active regions. -/
theorem claimC1_validity_invariant_witness :
    4 ≤ (headResult (solveWorldRunes catA regsA "e1" "e2" cfg55)).composition.activeRegions.length :=
  (claimC1_validity_invariant catA regsA "e1" "e2" cfg55
    (headResult (solveWorldRunes catA regsA "e1" "e2" cfg55)) (by decide)).1

/-- C2 (failing-input theorem): on catalog A the solver returns a
composition whose units list contains the same unit id twice — the
Void filler branch omits the `uniqueUnits` deduplication. -/
theorem claimC2_duplicate_unit_returned :
    ∃ r ∈ solveWorldRunes catA regsA "e1" "e2" cfg55,
      ¬ (r.composition.units.map (fun u => u.id)).Nodup := by
  decide

/-- C3 (failing-behavior theorem): the smart-phase accept block appends
a valid unseen composition even when the accepted-result count already
equals the hard cap `MAX_TOTAL_RESULTS` — no cap check exists on this
path, unlike `bruteLoop` and the size loop. -/
theorem claimC3_smart_ignores_cap (c : SearchCtx) (branch : FillerBranch)
    (team : List GameUnit) (st : SolverState)
    (_hcap : MAX_TOTAL_RESULTS ≤ st.results.length)
    (hvalid : (isValidComposition c.regions team c.emblem1 c.emblem2).valid = true)
    (hunseen : st.seen.contains (compositionKey team) = false) :
    (smartAccept c branch team st).results.length = st.results.length + 1 := by
  unfold smartAccept
  dsimp only
  split
  · split
    · rename_i hcontains
      rw [hunseen] at hcontains
      exact absurd hcontains (by simp)
    · simp
  · rename_i hnvalid
    exact absurd hvalid hnvalid

/-- Witness for C3: with 2000 results already accepted, the smart accept
block still appends a 2001st one. -/
theorem claimC3_smart_ignores_cap_witness :
    (smartAccept
      ⟨regsA, catA, "e1", "e2", [], [], [], [], [], [], []⟩
      FillerBranch.voidRegion
      [⟨"a", "A", 1, ["e1"], false⟩, ⟨"b", "B", 1, ["e2"], false⟩,
       ⟨"t", "T", 1, ["targon", "void"], false⟩,
       ⟨"t", "T", 1, ["targon", "void"], false⟩, ⟨"v", "V", 1, ["void"], false⟩]
      ⟨List.replicate 2000 (headResult []), [], 0, 0, [], 0, []⟩).results.length =
      2000 + 1 := by
  have hlen :
      (⟨List.replicate 2000 (headResult []), [], 0, 0, [], 0, []⟩ : SolverState).results.length =
        2000 :=
    List.length_replicate 2000 _
  have h := claimC3_smart_ignores_cap
    ⟨regsA, catA, "e1", "e2", [], [], [], [], [], [], []⟩
    FillerBranch.voidRegion
    [⟨"a", "A", 1, ["e1"], false⟩, ⟨"b", "B", 1, ["e2"], false⟩,
     ⟨"t", "T", 1, ["targon", "void"], false⟩,
     ⟨"t", "T", 1, ["targon", "void"], false⟩, ⟨"v", "V", 1, ["void"], false⟩]
    ⟨List.replicate 2000 (headResult []), [], 0, 0, [], 0, []⟩
    (by rw [hlen]; decide) (by decide) (by decide)
  rw [h, hlen]

/-- C4 counterexample: on catalog B a smart-phase candidate (Shadow
Isles branch) is sent to the validator although it fails the
prefilter. -/
theorem claimC4_prefilter_counterexample :
    ∃ ev ∈ (runSolver catB regsB "e1" "e2" cfg55).events,
      ev.branch ≠ FillerBranch.brute ∧
      prefilterPass regsB "e1" "e2" ev.team = false := by
  decide

/-- C4 (amended): in the Piltover and Yordle filler branches of the
smart phase, every candidate sent to the Composition Validator passes
the cheap necessary-condition prefilter; the Shadow-Isles and Void
branches validate their candidates directly. -/
theorem claimC4_prefilter_amended (catalogUnits : List GameUnit)
    (regions : List Region) (emblem1 emblem2 : String) (config : SolverConfig) :
    ∀ ev ∈ (runSolver catalogUnits regions emblem1 emblem2 config).events,
      ev.branch = FillerBranch.piltover ∨ ev.branch = FillerBranch.yordle →
        prefilterPass regions emblem1 emblem2 ev.team = true :=
  fun ev hm =>
    (runSolver_invariant catalogUnits regions emblem1 emblem2 config).2.1 ev hm

/-- Witness for C4 (amended): the first validator invocation on catalog
C comes from the Piltover branch and passes the prefilter. -/
theorem claimC4_prefilter_amended_witness :
    prefilterPass regsC "e1" "e2"
      (headEvent (runSolver catC regsC "e1" "e2" cfg55).events).team = true :=
  claimC4_prefilter_amended catC regsC "e1" "e2" cfg55
    (headEvent (runSolver catC regsC "e1" "e2" cfg55).events) (by decide)
    (Or.inl (by decide))

/-- C5 counterexample: on catalog A the solver returns a result whose
`totalCost` is absent (a smart-phase push), not the sum of its unit
costs. -/
theorem claimC5_totalCost_counterexample :
    ∃ r ∈ solveWorldRunes catA regsA "e1" "e2" cfg55,
      r.totalCost ≠ some (sumCosts r.composition.units) := by
  decide

/-- C5 (amended): every SolverResult returned by search carries either
no `totalCost` at all (smart-phase pushes omit the field) or a
`totalCost` equal to the sum of the cost values of the units in its
composition (brute-force pushes). -/
theorem claimC5_totalCost_amended (catalogUnits : List GameUnit)
    (regions : List Region) (emblem1 emblem2 : String) (config : SolverConfig) :
    ∀ r ∈ solveWorldRunes catalogUnits regions emblem1 emblem2 config,
      r.totalCost = none ∨ r.totalCost = some (sumCosts r.composition.units) :=
  fun r hm =>
    ((runSolver_invariant catalogUnits regions emblem1 emblem2 config).1 r hm).2

/-- Witness for C5 (amended): applied to the first result of the
catalog A run. -/
theorem claimC5_totalCost_amended_witness :
    (headResult (solveWorldRunes catA regsA "e1" "e2" cfg55)).totalCost = none ∨
    (headResult (solveWorldRunes catA regsA "e1" "e2" cfg55)).totalCost =
      some (sumCosts (headResult (solveWorldRunes catA regsA "e1" "e2" cfg55)).composition.units) :=
  claimC5_totalCost_amended catA regsA "e1" "e2" cfg55
    (headResult (solveWorldRunes catA regsA "e1" "e2" cfg55)) (by decide)

/-- C6 counterexample: with target size 0 and budget 0 the generator
still emits its one empty subset, exceeding the `maxResults` budget of
0 (the k = 0 short-circuit ignores the budget; the k = n short-circuit
behaves the same way). -/
theorem claimC6_generator_counterexample :
    generateCombinations ([0] : List Nat) 0 0 = [[]] ∧
    ¬ ((generateCombinations ([0] : List Nat) 0 0).length ≤ 0) := by
  decide

/-- C6 (amended): for every item list, target size k and budget,
generateCombinations emits k-element sublists preserving relative input
order; the emissions correspond (by extraction) to the emissions on the
index list `range n`, which are strictly increasing index tuples in
strictly increasing lexicographic order — hence no subset is emitted
twice; for 0 < k < n at most `maxResults` subsets are emitted (the k=0
and k=n short-circuits emit their single subset even when the budget is
0); k=0 emits exactly one empty subset, k>n emits nothing, and k=n
emits the whole list exactly once. -/
theorem claimC6_generator_amended (items : List α) (k b : Nat) :
    (∀ l ∈ generateCombinations items k b, l.length = k ∧ l.Sublist items) ∧
    generateCombinations items k b =
      (generateCombinations (List.range items.length) k b).map
        (fun ixs => ixs.filterMap (fun i => items.get? i)) ∧
    (∀ ixs ∈ generateCombinations (List.range items.length) k b,
      List.Pairwise (· < ·) ixs ∧ ∀ i ∈ ixs, i < items.length) ∧
    List.Pairwise (fun l1 l2 => List.Lex (· < ·) l1 l2 ∧ l1 ≠ l2)
      (generateCombinations (List.range items.length) k b) ∧
    (0 < k → k < items.length → (generateCombinations items k b).length ≤ b) ∧
    (k = 0 → generateCombinations items k b = [[]]) ∧
    (items.length < k → generateCombinations items k b = []) ∧
    (k = items.length → generateCombinations items k b = [items]) := by
  refine ⟨generateCombinations_shape items k b, ?_, gcIdx_mem_bounds items.length k b,
    List.Pairwise.imp (fun h => ⟨h, lex_lt_ne h⟩) (gcIdx_lex items.length k b),
    ?_, ?_, ?_, ?_⟩
  · cases items with
    | nil =>
      by_cases hk : k = 0
      · simp [generateCombinations, hk]
      · simp [generateCombinations, hk, Nat.pos_of_ne_zero hk]
    | cons hd tl =>
      conv_lhs => rw [(map_getD_range (hd :: tl) hd).symm]
      rw [generateCombinations_map]
      apply List.map_congr_left
      intro ixs hmem
      exact (filterMap_get?_eq_map_getD (hd :: tl) hd ixs
        (gcIdx_mem_bounds (hd :: tl).length k b ixs hmem).2).symm
  · intro hk0 hkn
    unfold generateCombinations
    rw [if_neg (by omega), if_neg (by omega), if_neg (by omega)]
    obtain ⟨hcount, hbound⟩ := btkB_count b k items ([] : List α) 0
    have := hbound (Nat.zero_le b)
    omega
  · intro h0
    unfold generateCombinations
    rw [if_pos h0]
  · intro hgt
    unfold generateCombinations
    rw [if_neg (by omega), if_pos hgt]
  · intro heq
    unfold generateCombinations
    by_cases h0 : k = 0
    · rw [if_pos h0]
      have : items = [] := List.length_eq_zero.mp (heq.symm.trans h0)
      rw [this]
    · rw [if_neg h0, if_neg (by omega), if_pos heq]

/-- Witness for C6 (amended): the budget bound applied at a concrete
0 < k < n instance. -/
theorem claimC6_generator_amended_witness :
    (generateCombinations [10, 20, 30] 2 5).length ≤ 5 :=
  (claimC6_generator_amended [10, 20, 30] 2 5).2.2.2.2.1 (by decide) (by decide)

/-- C7 counterexample: on catalog D, at size 3 the smart phase has
accepted 0 results in total, yet the brute-force phase is NOT
attempted (10 brute-force results from size 2 already exist). -/
theorem claimC7_bruteGate_counterexample :
    ∃ t ∈ (runSolver catD regsD "e1" "e2" cfg23).sizeTrace,
      ¬ (t.bruteAttempted = true ↔ t.smartTotal < 10) := by
  decide

/-- C7 (amended): within each team-size iteration, the brute-force
phase is attempted iff the TOTAL number of accepted results — from
both phases, over all sizes processed so far, including this size's
smart phase — is below 10. -/
theorem claimC7_bruteGate_amended (catalogUnits : List GameUnit)
    (regions : List Region) (emblem1 emblem2 : String) (config : SolverConfig) :
    ∀ t ∈ (runSolver catalogUnits regions emblem1 emblem2 config).sizeTrace,
      t.bruteAttempted = true ↔ t.resultsAfterSmart < 10 := by
  intro t hm
  have h := (runSolver_invariant catalogUnits regions emblem1 emblem2 config).2.2 t hm
  unfold TraceOk at h
  rw [h]
  exact decide_eq_true_iff

/-- Witness for C7 (amended): the size-2 entry of the catalog D trace
attempted the brute-force phase, matching its below-10 result count. -/
theorem claimC7_bruteGate_amended_witness :
    (headTrace (runSolver catD regsD "e1" "e2" cfg23).sizeTrace).bruteAttempted = true :=
  (claimC7_bruteGate_amended catD regsD "e1" "e2" cfg23
    (headTrace (runSolver catD regsD "e1" "e2" cfg23).sizeTrace) (by decide)).mpr
    (by decide)

/-- C8: for every pair of emblem region ids and every config, if either
emblem id does not resolve to a region of the catalog, search
(solveWorldRunes) returns the empty list rather than signalling an
error. -/
theorem claimC8_unknown_emblem (catalogUnits : List GameUnit)
    (regions : List Region) (emblem1 emblem2 : String) (config : SolverConfig)
    (h : getRegionById regions emblem1 = none ∨ getRegionById regions emblem2 = none) :
    solveWorldRunes catalogUnits regions emblem1 emblem2 config = [] := by
  unfold solveWorldRunes runSolver
  split
  · rfl
  · split
    · rename_i heq1 heq2
      rcases h with h | h
      · rw [h] at heq1
        exact Option.noConfusion heq1
      · rw [h] at heq2
        exact Option.noConfusion heq2
    · rfl

/-- Witness for C8: the id `zzz` resolves to no region of catalog A and
the search returns the empty list. -/
theorem claimC8_unknown_emblem_witness :
    getRegionById regsA "zzz" = none ∧
    solveWorldRunes catA regsA "zzz" "e2" cfg55 = [] :=
  ⟨by decide,
   claimC8_unknown_emblem catA regsA "zzz" "e2" cfg55 (Or.inl (by decide))⟩

/-- C9: for every result list and every set of unlocked unit ids, the
filtered list produced by the unlock filter (applyUnlockFilter) has
length at most that of the input list, and the minimum unitCount over
the filtered list (when non-empty) is at least the minimum unitCount
over the input list. -/
theorem claimC9_unlock_filter_monotone (results : List SolverResult)
    (unlockedIds : List String) :
    (applyUnlockFilter results unlockedIds).length ≤ results.length ∧
    (applyUnlockFilter results unlockedIds ≠ [] →
      minimalUnitCount results ≤ minimalUnitCount (applyUnlockFilter results unlockedIds)) := by
  constructor
  · exact (dedupBySignature_length _ _).trans (List.length_filter_le _ _)
  · intro hne
    obtain ⟨r, hrmem, hreq⟩ := minimalUnitCount_mem hne
    rw [hreq]
    have hr1 : r ∈ unlockGate unlockedIds results := dedupBySignature_subset hrmem
    have hr2 : r ∈ results := List.mem_of_mem_filter hr1
    exact minimalUnitCount_le hr2

/-- Witness for C9: on a concrete two-result list with one locked
result, the filtered list is non-empty and its minimum is at least the
unfiltered minimum. -/
theorem claimC9_unlock_filter_monotone_witness :
    applyUnlockFilter resultsC9 [] ≠ [] ∧
    minimalUnitCount resultsC9 ≤ minimalUnitCount (applyUnlockFilter resultsC9 []) :=
  ⟨by decide, (claimC9_unlock_filter_monotone resultsC9 []).2 (by decide)⟩

/-- C10: if the unlock filter excludes every result while the input
list is non-empty, the empty filtered list's minimum unit count is
treated as 0, the higher-minimum trigger never fires, and the
unlock-suggestion set is empty. -/
theorem claimC10_empty_filter_no_suggestions (results : List SolverResult)
    (unlockedIds : List String) (_hne : results ≠ [])
    (hempty : applyUnlockFilter results unlockedIds = []) :
    unlockSuggestions results unlockedIds = [] := by
  unfold unlockSuggestions
  dsimp only
  rw [hempty]
  rw [if_neg]
  rintro ⟨hlt, -⟩
  exact absurd hlt (by simp [minimalUnitCount])

/-- Witness for C10: a single locked result is filtered out entirely
and no unlock suggestions are produced. -/
theorem claimC10_empty_filter_no_suggestions_witness :
    resultsC10 ≠ [] ∧ applyUnlockFilter resultsC10 [] = [] ∧
    unlockSuggestions resultsC10 [] = [] :=
  ⟨by decide, by decide,
   claimC10_empty_filter_no_suggestions resultsC10 [] (by decide) (by decide)⟩

end WorldRunes
